import Mathlib

/-!
Verification of the cobra_color terminal text-styling and image-rendering
library. The definitions below are a shallow embedding of the Python source:

* `src/cobra_color/color.py`  — color/style codec and the ColorStr segment model;
* `src/cobra_color/draw/utils.py` — image renderer (`render_image`, `to_bin_image`);
* `src/cobra_color/draw/image.py` — `fmt_image` dimension derivation;
* `src/cobra_color/format.py` — `fmt_dict` structured pretty-printer.

Machine-level details that matter are modelled explicitly:

* numpy `uint8` arithmetic wraps modulo 256, and numpy scalar values are not
  Python `int` instances (`isinstance(np.uint8(5), int)` is `False`);
* Python `str + ColorStr` (a `str` subclass defining no `__radd__`) falls back
  to `str` buffer concatenation, so only the underlying plain text of the
  ColorStr survives — the subclass `__add__`/`__str__` are never consulted;
* f-string interpolation of a `str` subclass calls `str()` on it, which for
  ColorStr returns the `rich` view.
-/

/-- `_COLOR_CODE` table from color.py: one-letter color names to SGR digits. -/
def colorCodeMap : String → Option String := fun s =>
  match s with
  | "d" => some "0"
  | "r" => some "1"
  | "g" => some "2"
  | "y" => some "3"
  | "b" => some "4"
  | "m" => some "5"
  | "c" => some "6"
  | "w" => some "7"
  | _ => none

/-- `_STYLE_CODE` table from color.py: style tag names to SGR digits. -/
def styleCodeMap : String → Option String := fun s =>
  match s with
  | "bold" => some "1"
  | "dim" => some "2"
  | "italic" => some "3"
  | "udl" => some "4"
  | "underline" => some "4"
  | "blink" => some "5"
  | "selected" => some "7"
  | "disappear" => some "8"
  | "del" => some "9"
  | "delete" => some "9"
  | _ => none

/-- A color argument as passed to `ctext`/`_parse_color` in color.py.
`name` is a Python `str`; `palette` a Python `int`; `ints` an iterable of
Python `int`s; `npArr` a numpy `uint8` vector (its elements are numpy scalars,
which fail Python's `isinstance(val, int)` check). -/
inductive PyColor where
  | name (s : String)
  | palette (n : Int)
  | ints (l : List Int)
  | npArr (l : List Nat)
deriving DecidableEq

/-- `_parse_color` from color.py (lines 365-389). For `npArr`, the guard
`all(isinstance(val, int) and 0 <= val <= 255 for val in c)` is `False` as
soon as the array has an element (numpy scalars are not `int`), and vacuously
`True` when it is empty. -/
def parseColor (c : PyColor) (is_fg : Bool) : String :=
  match c with
  | .name s =>
    match colorCodeMap s with
    | some code => (if is_fg then "3" else "4") ++ code
    | none =>
      match s.data with
      | ['l', ch] =>
        match colorCodeMap (String.mk [ch]) with
        | some code => (if is_fg then "9" else "10") ++ code
        | none => ""
      | _ => ""
  | .palette n =>
    if 0 ≤ n ∧ n ≤ 255 then (if is_fg then "38" else "48") ++ ";5;" ++ toString n
    else ""
  | .ints l =>
    if l.all (fun v => decide (0 ≤ v) && decide (v ≤ 255)) then
      let rgb := (l ++ [0, 0, 0]).take 3
      (if is_fg then "38" else "48") ++ ";2;" ++ toString (rgb.getD 0 0) ++ ";"
        ++ toString (rgb.getD 1 0) ++ ";" ++ toString (rgb.getD 2 0)
    else ""
  | .npArr l =>
    if l.isEmpty then (if is_fg then "38" else "48") ++ ";2;0;0;0"
    else ""

/-- Python `str.strip(";")`: remove leading and trailing semicolons. -/
def stripSemis (s : String) : String :=
  String.mk (((s.data.dropWhile (fun ch => ch = ';')).reverse.dropWhile
    (fun ch => ch = ';')).reverse)

/-- `_get_ansi_code` from color.py (lines 357-401): returns
`(style_code, color_code)`. The style codes are joined in the order the
`styles` iterable yields them. -/
def getAnsiCode (fg bg : Option PyColor) (styles : List String) : String × String :=
  let style_code := String.intercalate ";" (styles.filterMap styleCodeMap)
  let foreground := match fg with | none => "" | some c => parseColor c true
  let background := match bg with | none => "" | some c => parseColor c false
  (style_code, stripSemis (foreground ++ ";" ++ background))

/-- One `(plain, color_code, style_code)` tuple of `ColorStr._SEGMENTS`. -/
structure Segment where
  plain : String
  colorCode : String
  styleCode : String
deriving DecidableEq

/-- The loop body of `_assemble_segments` (color.py lines 412-428): skip
segments with empty plain text, else wrap in escape/reset when the selected
codes are non-empty after stripping semicolons. -/
def assembleStep (use_color use_style : Bool) (result : String) (seg : Segment) : String :=
  if seg.plain = "" then result
  else
    let codes :=
      if use_color && use_style then seg.styleCode ++ ";" ++ seg.colorCode
      else if use_color then seg.colorCode
      else if use_style then seg.styleCode
      else ""
    let codes := stripSemis codes
    if codes = "" then result ++ seg.plain
    else result ++ "\x1b[" ++ codes ++ "m" ++ seg.plain ++ "\x1b[0m"

/-- `_assemble_segments` from color.py (lines 404-429). -/
def assembleSegments (segments : List Segment) (use_color use_style : Bool) : String :=
  segments.foldl (assembleStep use_color use_style) ""

/-- A `ColorStr` value: `content` is the character buffer of the underlying
`str` instance, `segments` is the `_SEGMENTS` attribute. -/
structure ColorStr where
  content : String
  segments : List Segment
deriving DecidableEq

/-- `ColorStr.__new__(cls, *segments)` (color.py lines 205-226): the `str`
buffer is `_assemble_segments(segments, use_color=False, use_style=False)`. -/
def ColorStr.new (segments : List Segment) : ColorStr :=
  ⟨assembleSegments segments false false, segments⟩

/-- `ColorStr.from_str` (color.py lines 177-203): codes are computed only when
the text is non-empty and at least one of fg/bg/styles was supplied. -/
def ColorStr.from_str (s : String) (fg bg : Option PyColor)
    (styles : Option (List String)) : ColorStr :=
  let codes :=
    if s ≠ "" ∧ (fg.isSome ∨ bg.isSome ∨ styles.isSome) then
      getAnsiCode fg bg (styles.getD [])
    else ("", "")
  ⟨s, [⟨s, codes.2, codes.1⟩]⟩

/-- `ctext` from color.py: delegates to `ColorStr.from_str`. -/
def ctext (text : String) (fg bg : Option PyColor)
    (styles : Option (List String)) : ColorStr :=
  ColorStr.from_str text fg bg styles

/-- `plain` property: `super().__str__()`, i.e. the raw `str` buffer. -/
def ColorStr.plain (s : ColorStr) : String := s.content

/-- `rich` property: both code kinds applied. -/
def ColorStr.rich (s : ColorStr) : String := assembleSegments s.segments true true

/-- `color_only` property. -/
def ColorStr.color_only (s : ColorStr) : String :=
  assembleSegments s.segments true false

/-- `style_only` property. -/
def ColorStr.style_only (s : ColorStr) : String :=
  assembleSegments s.segments false true

/-- `ColorStr.__add__` with a ColorStr right operand (color.py lines 297-302). -/
def ColorStr.add (a b : ColorStr) : ColorStr :=
  ColorStr.new (a.segments ++ b.segments)

/-- `ColorStr.__add__` with a plain-`str` right operand. -/
def ColorStr.addStr (a : ColorStr) (s : String) : ColorStr :=
  ColorStr.new (a.segments ++ [⟨s, "", ""⟩])

/-- The dynamic argument of `ColorStr.__mul__`: a Python `int` or any other
object (which fails the `isinstance(n, int)` assertion). -/
inductive PyMulArg where
  | int (n : Int)
  | nonInt (descr : String)

/-- `ColorStr.__mul__` (color.py lines 304-308): non-`int` arguments raise an
`AssertionError`; `n <= 0` returns the empty ColorStr; otherwise the Python
list repetition `self._SEGMENTS * n`. -/
def ColorStr.mul (s : ColorStr) (n : PyMulArg) : Except String ColorStr :=
  match n with
  | .nonInt _ => .error "Can Only Multiply ColorStr By An Integer."
  | .int n =>
    if n ≤ 0 then .ok (ColorStr.new [])
    else .ok (ColorStr.new (List.flatten (List.replicate n.toNat s.segments)))

/-- Python `str.__add__` with a ColorStr right operand: `ColorStr` defines no
`__radd__`, so CPython falls back to `str` buffer concatenation — only the
underlying plain content of the ColorStr survives, and the result is a plain
`str`. This is what `line_str += ctext(...)` in draw/utils.py executes. -/
def strAddColorStr (a : String) (cs : ColorStr) : String := a ++ cs.content

/-- Concatenation of the segments' plain texts, in order. -/
def concatPlains : List Segment → String
  | [] => ""
  | seg :: rest => seg.plain ++ concatPlains rest

/-- The representation invariant of `ColorStr`: the underlying `str` buffer is
the concatenation of the segments' plain texts. -/
def GoodColorStr (s : ColorStr) : Prop := s.content = concatPlains s.segments

instance (s : ColorStr) : Decidable (GoodColorStr s) := by
  unfold GoodColorStr; infer_instance

/-- ColorStr values as actually produced by the library: by `from_str` (hence
`ctext` and templates), from explicit segment tuples (`__new__`), by
concatenation, and by successful repetition. -/
inductive Built : ColorStr → Prop
  | ofFromStr (s : String) (fg bg : Option PyColor) (styles : Option (List String)) :
      Built (ColorStr.from_str s fg bg styles)
  | ofSegs (segments : List Segment) : Built (ColorStr.new segments)
  | ofAdd (a b : ColorStr) : Built a → Built b → Built (ColorStr.add a b)
  | ofAddStr (a : ColorStr) (s : String) : Built a → Built (ColorStr.addStr a s)
  | ofMul (a : ColorStr) (n : PyMulArg) (r : ColorStr) :
      Built a → ColorStr.mul a n = .ok r → Built r

/-! ## Image renderer (draw/utils.py) -/

/-- An RGB pixel: a numpy `uint8` triple (each component in [0,255]). -/
abbrev RGBPixel := Nat × Nat × Nat

/-- The color passed for a pixel in `half-color` (or `color`) mode: the raw
numpy row element, an array of three `uint8` scalars. -/
def npColor (p : RGBPixel) : PyColor := .npArr [p.1, p.2.1, p.2.2]

/-- The color passed for a pixel in `half-gray` mode: the code converts the
numpy scalar with `int(...)` and builds a tuple of Python ints. -/
def grayColor (v : Nat) : PyColor := .ints [(v : Int), (v : Int), (v : Int)]

/-- The `for y in range(0, height, 2)` pairing of pixel rows in the
`half-` modes: `(pixel_arr[y], pixel_arr[y+1] if y+1 < height else None)`. -/
def pairRows {α : Type} : List α → List (α × Option α)
  | [] => []
  | [a] => [(a, none)]
  | a :: b :: rest => (a, some b) :: pairRows rest

/-- One output text row of `half-color` mode (draw/utils.py lines 64-89):
`line_str += ctext("▀", fg=upper_row[x], bg=lower_row[x] or None)`.
The rows of a numpy 2-D array have equal width, so the column loop is a zip. -/
def halfColorLine (up : List RGBPixel) (low : Option (List RGBPixel)) : String :=
  match low with
  | some lo =>
    (up.zip lo).foldl (fun acc ul =>
      strAddColorStr acc (ctext "▀" (some (npColor ul.1)) (some (npColor ul.2)) none)) ""
  | none =>
    up.foldl (fun acc u =>
      strAddColorStr acc (ctext "▀" (some (npColor u)) none none)) ""

/-- `render_image` in mode `"half-color"`: rows joined by newline. -/
def renderImageHalfColor (rows : List (List RGBPixel)) : String :=
  String.intercalate "\n" ((pairRows rows).map (fun p => halfColorLine p.1 p.2))

/-- One output text row of `half-gray` mode (luminance pixels). -/
def halfGrayLine (up : List Nat) (low : Option (List Nat)) : String :=
  match low with
  | some lo =>
    (up.zip lo).foldl (fun acc ul =>
      strAddColorStr acc (ctext "▀" (some (grayColor ul.1)) (some (grayColor ul.2)) none)) ""
  | none =>
    up.foldl (fun acc u =>
      strAddColorStr acc (ctext "▀" (some (grayColor u)) none none)) ""

/-- `render_image` in mode `"half-gray"`. -/
def renderImageHalfGray (rows : List (List Nat)) : String :=
  String.intercalate "\n" ((pairRows rows).map (fun p => halfGrayLine p.1 p.2))

/-- The per-pixel character index of `"ascii"` mode (draw/utils.py lines
92-98): `(pixel_arr - min) * (len(charset) - 1) // (max - min)` computed by
numpy on a `uint8` array, so the product wraps modulo 256 (for charsets of at
most 256 characters, where `len(charset) - 1` is value-cast to `uint8`).
`p - pmin` never underflows because `pmin` is the grid minimum. -/
def asciiIndex (csLen pmin pmax p : Nat) : Nat :=
  if pmax = pmin then 0
  else ((p - pmin) * (csLen - 1)) % 256 / (pmax - pmin)

/-- `pixel_arr.min()` of a non-empty `uint8` grid, folded with initial 255. -/
def gridMin (flat : List Nat) : Nat := flat.foldl min 255

/-- `pixel_arr.max()` of a non-empty `uint8` grid, folded with initial 0. -/
def gridMax (flat : List Nat) : Nat := flat.foldl max 0

/-- `render_image` in mode `"ascii"` (draw/utils.py lines 90-99) on a
single-channel grid: the output rows, `char_arr[indices[row]]` joined per row.
`none` when the grid is empty (numpy `max`/`min` raise there) or a computed
index falls outside the charset (numpy raises IndexError). -/
def renderImageAscii (charset : List Char) (grid : List (List Nat)) :
    Option (List String) :=
  let flat := grid.flatten
  if flat.isEmpty then none
  else
    let pmin := gridMin flat
    let pmax := gridMax flat
    grid.mapM (fun row =>
      (row.mapM (fun p => charset.get? (asciiIndex charset.length pmin pmax p))).map
        String.mk)

/-! ## Binarization (`to_bin_image`, draw/utils.py lines 123-177) -/

/-- The per-pixel rule of `to_bin_image`: `mask = arr > threshold`, then
`np.where(mask[..., None], upper_rgb, lower_rgb)`. `p` is the `uint8`
luminance; `threshold` the Python int argument. -/
def binPixel (threshold : Int) (upper_rgb lower_rgb : RGBPixel) (p : Nat) : RGBPixel :=
  if threshold < (p : Int) then upper_rgb else lower_rgb

/-- `to_bin_image` on a 2-D luminance array. -/
def toBinImage (threshold : Int) (upper_rgb lower_rgb : RGBPixel)
    (arr : List (List Nat)) : List (List RGBPixel) :=
  arr.map (fun row => row.map (binPixel threshold upper_rgb lower_rgb))

/-! ## `fmt_image` dimension derivation (draw/image.py lines 50-58)

`aspect_ratio = img.height / img.width`; when only `width` is given,
`height = int(aspect_ratio * width)`; when only `height` is given,
`width = int(height / aspect_ratio)`. `int(...)` truncates toward zero; for
the non-negative quantities involved this is the floor, modelled here in
exact rational arithmetic (`Nat` division). -/

/-- Derived height when only `width` is supplied. -/
def fmtDerivedHeight (srcW srcH width : Nat) : Nat := srcH * width / srcW

/-- Derived width when only `height` is supplied. -/
def fmtDerivedWidth (srcW srcH height : Nat) : Nat := height * srcW / srcH

/-- Modelled from the spec: the claimed derivation `round(given ×
(otherHeight/otherWidth))`, with Python's `round` (half to even), here for the
derived height `round(srcH * width / srcW)`. For comparison with
`fmtDerivedHeight` only. -/
def specRoundDerivedHeight (srcW srcH width : Nat) : Nat :=
  let num := srcH * width
  let q := num / srcW
  let r := num % srcW
  if 2 * r < srcW then q
  else if srcW < 2 * r then q + 1
  else if q % 2 = 0 then q else q + 1

/-! ## Structured pretty-printer (`fmt_dict`, format.py) -/

/-- A Python value as it appears to `fmt_dict`: its `str()` text, its
truthiness, and its type name. -/
structure PyShown where
  shown : String
  truthy : Bool
  typeName : String
deriving DecidableEq

/-- Python `str.zfill` for the non-negative index strings used here. -/
def zfill (w : Nat) (s : String) : String :=
  if w ≤ s.length then s else String.mk (List.replicate (w - s.length) '0' ++ s.data)

/-- `_STYLES["placeholder"]("PLACEHOLDER")` rendered by f-string interpolation,
which calls `str()` and thus the `rich` view (format.py line 108). -/
def placeholderRich : String :=
  (ColorStr.from_str "PLACEHOLDER" none none (some ["udl"])).rich

/-- The value field of a `fmt_dict` entry line (format.py lines 106-110): the
omitted-and-truthy case shows the placeholder; otherwise `str(val)`. For a
plain mapping the compared name is the entry's key itself. -/
def fmtDictValField (omits : List String) (key : String) (v : PyShown) : String :=
  if key ∈ omits ∧ v.truthy then placeholderRich else v.shown

/-- Everything of an entry line before the value (format.py line 110):
`f"#{str(idex).zfill(indent)} {key_temp(f'[{param_name}]')}{type_str}: {val}"`.
`keyStyles` is the iteration order of the style set `{"bold", "selected"}` of
`_STYLES["key"]`, which Python leaves unspecified; the type template is
`compile_template(fg="c", styles={"italic"})`. -/
def fmtDictLineLabel (keyStyles : List String) (indent idx : Nat) (key : String)
    (v : PyShown) : String :=
  "#" ++ zfill indent (toString idx) ++ " "
    ++ (ColorStr.from_str ("[" ++ key ++ "]") none none (some keyStyles)).rich
    ++ (ColorStr.from_str v.typeName (some (.name "c")) none (some ["italic"])).rich
    ++ ": "

/-- A full `fmt_dict` entry line for a plain-mapping target. -/
def fmtDictLine (keyStyles omits : List String) (indent idx : Nat) (key : String)
    (v : PyShown) : String :=
  fmtDictLineLabel keyStyles indent idx key v ++ fmtDictValField omits key v

/-- `fmt_dict` on a plain mapping (no `__dict__` branch, no display): the
title line is built by `str + ColorStr` concatenation, which keeps only the
plain buffer. -/
def fmtDict (keyStyles : List String) (target : List (String × PyShown))
    (omits : List String) (title : String) : String :=
  if target.isEmpty then ""
  else
    let indent := (toString target.length).length
    let titleLines :=
      if title = "" then []
      else [String.mk (List.replicate (indent + 2) ' ') ++ "< " ++ title ++ " >"]
    let entryLines := target.enum.map (fun p =>
      fmtDictLine keyStyles omits indent (p.1 + 1) p.2.1 p.2.2)
    String.intercalate "\n" (titleLines ++ entryLines)

/-! ## Helper lemmas -/

/-- With both code kinds disabled, the assembly step just appends the plain
text (appending nothing for empty plain text). -/
theorem assembleStep_false_false (result : String) (seg : Segment) :
    assembleStep false false result seg = result ++ seg.plain := by
  by_cases h : seg.plain = ""
  · simp [assembleStep, h, stripSemis]
  · simp [assembleStep, h, stripSemis]

theorem foldl_assembleStep_false_false (segments : List Segment) :
    ∀ acc : String,
      segments.foldl (assembleStep false false) acc = acc ++ concatPlains segments := by
  induction segments with
  | nil => intro acc; simp [concatPlains]
  | cons seg rest ih =>
    intro acc
    rw [List.foldl_cons, assembleStep_false_false, ih, concatPlains,
      String.append_assoc]

/-- `_assemble_segments(segments, use_color=False, use_style=False)` is the
concatenation of the plain texts. -/
theorem assembleSegments_false_false (segments : List Segment) :
    assembleSegments segments false false = concatPlains segments := by
  rw [assembleSegments, foldl_assembleStep_false_false]
  exact String.empty_append _

theorem concatPlains_append (xs ys : List Segment) :
    concatPlains (xs ++ ys) = concatPlains xs ++ concatPlains ys := by
  induction xs with
  | nil => simp [concatPlains]
  | cons seg rest ih => simp [concatPlains, ih, String.append_assoc]

/-- A concrete colored string shared by several witnesses below. -/
def sampleColorStr : ColorStr :=
  ColorStr.from_str "ab" (some (.name "r")) none none

/-- A second concrete colored string (built from explicit segments). -/
def sampleColorStr2 : ColorStr :=
  ColorStr.new [⟨"c", "", ""⟩, ⟨"d", "44", "1"⟩]

/-! ## Claim theorems -/

/-- C1 (counterexample): the codec does NOT emit style codes in a fixed
enumeration order — the same two style tags supplied in different orders
produce different styleCode strings ("1;4" versus "4;1"). -/
theorem styleCode_order_counterexample :
    (getAnsiCode none none ["bold", "underline"]).1 = "1;4"
    ∧ (getAnsiCode none none ["underline", "bold"]).1 = "4;1"
    ∧ (getAnsiCode none none ["bold", "underline"]).1
        ≠ (getAnsiCode none none ["underline", "bold"]).1 := by
  refine ⟨rfl, rfl, by decide⟩

/-- C1 (amended): styleCode is the recognized tags mapped through the
`_STYLE_CODE` table {bold:1, dim:2, italic:3, udl:4, underline:4, blink:5,
selected:7, disappear:8, del:9, delete:9} and joined by ';' in the order the
styles iterable supplies them (unrecognized tags, among them the literal tag
"strikethrough", are dropped silently); reordering the input reorders the
joined string. -/
theorem styleCode_input_order (styles : List String) (fg bg : Option PyColor) :
    (getAnsiCode fg bg styles).1
      = String.intercalate ";" (styles.filterMap styleCodeMap)
    ∧ ["bold", "dim", "italic", "udl", "underline", "blink", "selected",
        "disappear", "del", "delete"].filterMap styleCodeMap
      = ["1", "2", "3", "4", "4", "5", "7", "8", "9", "9"]
    ∧ styleCodeMap "strikethrough" = none := by
  refine ⟨rfl, by decide, by decide⟩

/-- C2 (counterexample): multiplying a ColorStr by the negative integer -1 is
not rejected — it returns the empty ColorStr value. -/
theorem mul_negative_counterexample :
    ColorStr.mul sampleColorStr (.int (-1)) = .ok (ColorStr.new []) := rfl

/-- C2 (amended): repetition by an integer n ≥ 0 yields the segments repeated
n times (n = 0 yields the empty value); every negative integer also yields the
empty value rather than an error; only non-integer arguments are rejected
(AssertionError). -/
theorem mul_spec (s : ColorStr) (n : Int) (d : String) :
    (0 ≤ n → ColorStr.mul s (.int n)
        = .ok (ColorStr.new (List.flatten (List.replicate n.toNat s.segments))))
    ∧ (n < 0 → ColorStr.mul s (.int n) = .ok (ColorStr.new []))
    ∧ ColorStr.mul s (.nonInt d)
        = .error "Can Only Multiply ColorStr By An Integer." := by
  refine ⟨fun h => ?_, fun h => ?_, rfl⟩
  · by_cases h0 : n ≤ 0
    · have hn : n = 0 := le_antisymm h0 h
      subst hn
      simp [ColorStr.mul]
    · simp [ColorStr.mul, h0]
  · simp [ColorStr.mul, show n ≤ 0 from le_of_lt h]

/-- C2 witness: concrete instances of `mul_spec`. -/
theorem mul_spec_witness :
    ColorStr.mul sampleColorStr (.int 2)
        = .ok (ColorStr.new
            (List.flatten (List.replicate (Int.toNat 2) sampleColorStr.segments)))
    ∧ ColorStr.mul sampleColorStr (.nonInt "a float")
        = .error "Can Only Multiply ColorStr By An Integer." :=
  ⟨(mul_spec sampleColorStr 2 "a float").1 (by decide),
   (mul_spec sampleColorStr 2 "a float").2.2⟩

/-- C3 (counterexample): a truecolor iterable with an out-of-range channel
(300) yields NO color code at all — not a clamped truecolor code. -/
theorem truecolor_out_of_range_counterexample :
    parseColor (.ints [300, 0, 0]) true = ""
    ∧ (getAnsiCode (some (.ints [300, 0, 0])) none []).2 = "" := by
  refine ⟨rfl, by decide⟩

/-- C3 (amended): an iterable of integer channels all within [0,255] emits
"38;2;r;g;b" (fg) or "48;2;r;g;b" (bg), with fewer than 3 components
right-padded with 0; if any channel lies outside [0,255] the whole color is
treated as absent and no code is emitted. -/
theorem truecolor_spec (l : List Int) :
    (l.all (fun v => decide (0 ≤ v) && decide (v ≤ 255)) = true →
      parseColor (.ints l) true
          = "38;2;" ++ toString (l.getD 0 0) ++ ";" ++ toString (l.getD 1 0)
            ++ ";" ++ toString (l.getD 2 0)
      ∧ parseColor (.ints l) false
          = "48;2;" ++ toString (l.getD 0 0) ++ ";" ++ toString (l.getD 1 0)
            ++ ";" ++ toString (l.getD 2 0))
    ∧ (l.all (fun v => decide (0 ≤ v) && decide (v ≤ 255)) = false →
      parseColor (.ints l) true = "" ∧ parseColor (.ints l) false = "") := by
  constructor
  · intro h
    constructor <;>
    · simp only [parseColor, h, if_true]
      rcases l with _ | ⟨a, _ | ⟨b, _ | ⟨c, t⟩⟩⟩ <;> simp [List.getD]
  · intro h
    constructor <;> simp [parseColor, h]

/-- C3 witness: a two-component in-range iterable gets padded with 0. -/
theorem truecolor_spec_witness :
    parseColor (.ints [1, 2]) true
        = "38;2;" ++ toString (([1, 2] : List Int).getD 0 0) ++ ";"
          ++ toString (([1, 2] : List Int).getD 1 0) ++ ";"
          ++ toString (([1, 2] : List Int).getD 2 0)
    ∧ parseColor (.ints [1, 2]) false
        = "48;2;" ++ toString (([1, 2] : List Int).getD 0 0) ++ ";"
          ++ toString (([1, 2] : List Int).getD 1 0) ++ ";"
          ++ toString (([1, 2] : List Int).getD 2 0) :=
  (truecolor_spec [1, 2]).1 (by decide)

/-- C4 (code evaluated at the failing input): a half-color render of an odd
1×3 RGB grid does produce ceil(3/2)=2 rows without crashing, but the rows are
bare half-block characters with NO escape codes: `line_str += ctext(...)`
keeps only the plain buffer, and in half-color mode `_parse_color` already
rejects the numpy uint8 channels, so even the per-cell ColorStr carries no
codes (third conjunct) — unlike half-gray, whose per-cell ColorStr does carry
them (fourth conjunct) before the concatenation strips them (second
conjunct). -/
theorem renderHalf_no_escape_codes :
    renderImageHalfColor [[(255, 0, 0)], [(0, 255, 0)], [(0, 0, 255)]] = "▀\n▀"
    ∧ renderImageHalfGray [[0], [255], [128]] = "▀\n▀"
    ∧ (ctext "▀" (some (npColor (255, 0, 0))) (some (npColor (0, 255, 0))) none).rich
        = "▀"
    ∧ (ctext "▀" (some (grayColor 0)) (some (grayColor 255)) none).rich
        = "\x1b[38;2;0;0;0;48;2;255;255;255m▀\x1b[0m" := by
  refine ⟨rfl, rfl, rfl, by decide⟩

/-- C5 (code evaluated at the failing input): in ascii mode the index product
is computed on a numpy uint8 array and wraps modulo 256, so for the grid
[[0, 255]] with the default 10-character charset the brightest pixel 255 gets
index ((255-0)*9) % 256 // 255 = 0 and renders as charset[0] ('@'), while the
claim's formula (255-0)*9 // (255-0) gives index 9. -/
theorem asciiIndex_overflow :
    renderImageAscii "@%#*+=-:. ".data [[0, 255]] = some ["@@"]
    ∧ asciiIndex 10 0 255 255 = 0
    ∧ (255 - 0) * (10 - 1) / (255 - 0) = 9 := by
  refine ⟨by decide, by decide, by decide⟩

/-- C7 (counterexample): for a 2-wide, 1-high source and width=3 the code
derives height int(0.5 * 3) = 1 (exact in binary floating point), while the
claim's round(0.5 * 3) = round(1.5) gives 2. -/
theorem fmtDerivedHeight_truncates_counterexample :
    fmtDerivedHeight 2 1 3 = 1 ∧ specRoundDerivedHeight 2 1 3 = 2 := by
  refine ⟨rfl, rfl⟩

/-- C7 (amended): when exactly one of width/height is given, the other is
derived by `int(...)` truncation of given × (otherHeight/otherWidth) — the
floor of the exact ratio, not the rounded value. -/
theorem fmtDerived_floor (srcW srcH width height : Nat)
    (hw : 0 < srcW) (hh : 0 < srcH) :
    srcW * fmtDerivedHeight srcW srcH width ≤ srcH * width
    ∧ srcH * width < srcW * (fmtDerivedHeight srcW srcH width + 1)
    ∧ srcH * fmtDerivedWidth srcW srcH height ≤ height * srcW
    ∧ height * srcW < srcH * (fmtDerivedWidth srcW srcH height + 1) := by
  unfold fmtDerivedHeight fmtDerivedWidth
  refine ⟨?_, ?_, ?_, ?_⟩
  · rw [Nat.mul_comm srcW]; exact Nat.div_mul_le_self _ _
  · rw [Nat.mul_comm srcW]
    exact (Nat.div_lt_iff_lt_mul hw).mp (Nat.lt_succ_self _)
  · rw [Nat.mul_comm srcH]; exact Nat.div_mul_le_self _ _
  · rw [Nat.mul_comm srcH]
    exact (Nat.div_lt_iff_lt_mul hh).mp (Nat.lt_succ_self _)

/-- C7 witness: `fmtDerived_floor` at the counterexample's dimensions. -/
theorem fmtDerived_floor_witness :
    2 * fmtDerivedHeight 2 1 3 ≤ 1 * 3
    ∧ 1 * 3 < 2 * (fmtDerivedHeight 2 1 3 + 1)
    ∧ 1 * fmtDerivedWidth 2 1 4 ≤ 4 * 2
    ∧ 4 * 2 < 1 * (fmtDerivedWidth 2 1 4 + 1) :=
  fmtDerived_floor 2 1 3 4 (by decide) (by decide)

/-- C10: binarization uses a strict threshold — a pixel gets the foreground
color exactly when its luminance strictly exceeds the threshold; a pixel equal
to the threshold gets the background color; `to_bin_image` applies this rule
pixelwise. -/
theorem toBinImage_strict_threshold (t : Int) (up low : RGBPixel) (p : Nat)
    (arr : List (List Nat)) :
    (t < (p : Int) → binPixel t up low p = up)
    ∧ ((p : Int) ≤ t → binPixel t up low p = low)
    ∧ ((p : Int) = t → binPixel t up low p = low)
    ∧ toBinImage t up low arr = arr.map (fun row => row.map (binPixel t up low)) := by
  refine ⟨fun h => ?_, fun h => ?_, fun h => ?_, rfl⟩
  · simp [binPixel, h]
  · simp [binPixel, not_lt.mpr h]
  · simp [binPixel, h]

/-- C10 witness: threshold 128 — pixel 200 gets the foreground color, pixel
exactly 128 gets the background color. -/
theorem toBinImage_strict_threshold_witness :
    binPixel 128 (255, 255, 255) (0, 0, 0) 200 = (255, 255, 255)
    ∧ binPixel 128 (255, 255, 255) (0, 0, 0) 128 = (0, 0, 0) :=
  ⟨(toBinImage_strict_threshold 128 (255, 255, 255) (0, 0, 0) 200 []).1 (by decide),
   (toBinImage_strict_threshold 128 (255, 255, 255) (0, 0, 0) 128 []).2.1 (by decide)⟩

/-- C6: `ColorStr.__add__` appends the right operand's segments after the left
operand's (a plain-string operand becomes a single segment with empty codes),
and the plain view is a homomorphism: `(a+b).plain = a.plain + b.plain` for
all ColorStr values satisfying the representation invariant. -/
theorem add_append_and_plain_hom (a b : ColorStr) (s : String)
    (ha : GoodColorStr a) (hb : GoodColorStr b) :
    (ColorStr.add a b).segments = a.segments ++ b.segments
    ∧ (ColorStr.addStr a s).segments = a.segments ++ [⟨s, "", ""⟩]
    ∧ (ColorStr.add a b).plain = a.plain ++ b.plain := by
  refine ⟨rfl, rfl, ?_⟩
  have ha' : a.content = concatPlains a.segments := ha
  have hb' : b.content = concatPlains b.segments := hb
  show (ColorStr.new (a.segments ++ b.segments)).content = a.content ++ b.content
  rw [ColorStr.new, assembleSegments_false_false, concatPlains_append, ha', hb']

/-- C6 witness: `add_append_and_plain_hom` at two concrete colored strings. -/
theorem add_append_and_plain_hom_witness :
    (ColorStr.add sampleColorStr sampleColorStr2).segments
        = sampleColorStr.segments ++ sampleColorStr2.segments
    ∧ (ColorStr.addStr sampleColorStr "z").segments
        = sampleColorStr.segments ++ [⟨"z", "", ""⟩]
    ∧ (ColorStr.add sampleColorStr sampleColorStr2).plain
        = sampleColorStr.plain ++ sampleColorStr2.plain :=
  add_append_and_plain_hom sampleColorStr sampleColorStr2 "z"
    (by decide) (by decide)

/-- C8: in a `fmt_dict` entry line, a value whose key is in the omit-list and
is truthy is replaced by the rendered PLACEHOLDER token; otherwise (key not
omitted, or value falsy) the real value is shown; the entry line is the label
followed by exactly this value field, and for a single-entry mapping
`fmt_dict` produces exactly that line. -/
theorem fmtDict_omit_placeholder (keyStyles omits : List String)
    (indent idx : Nat) (key : String) (v : PyShown) :
    (key ∈ omits → v.truthy = true →
      fmtDictValField omits key v = placeholderRich)
    ∧ (key ∉ omits ∨ v.truthy = false →
      fmtDictValField omits key v = v.shown)
    ∧ fmtDictLine keyStyles omits indent idx key v
        = fmtDictLineLabel keyStyles indent idx key v ++ fmtDictValField omits key v
    ∧ fmtDict keyStyles [(key, v)] omits ""
        = fmtDictLine keyStyles omits 1 1 key v := by
  refine ⟨fun hk ht => ?_, fun h => ?_, rfl, ?_⟩
  · simp [fmtDictValField, hk, ht]
  · rcases h with h | h <;> simp [fmtDictValField, h]
  · simp [fmtDict, List.enum, List.enumFrom, String.intercalate]
    rfl

/-- C8 witness: omitted truthy key shows the placeholder; a key not in the
omit-list shows the real value. -/
theorem fmtDict_omit_placeholder_witness :
    fmtDictValField ["password"] "password" ⟨"hunter2", true, "str"⟩
        = placeholderRich
    ∧ fmtDictValField ["password"] "user" ⟨"alice", true, "str"⟩ = "alice" :=
  ⟨(fmtDict_omit_placeholder [] ["password"] 1 1 "password"
      ⟨"hunter2", true, "str"⟩).1 (by decide) rfl,
   (fmtDict_omit_placeholder [] ["password"] 1 1 "user"
      ⟨"alice", true, "str"⟩).2.1 (Or.inl (by decide))⟩

/-- C9: every ColorStr the library constructs — by `from_str` (hence `ctext`
and templates), from explicit segment tuples, by concatenation, or by
repetition — has its underlying string content, and therefore its `plain`
view, equal to the concatenation of its segments' plain texts in order. -/
theorem built_plain_invariant (s : ColorStr) (h : Built s) :
    s.plain = concatPlains s.segments := by
  induction h with
  | ofFromStr s fg bg styles =>
    show (ColorStr.from_str s fg bg styles).content
        = concatPlains (ColorStr.from_str s fg bg styles).segments
    simp [ColorStr.from_str, concatPlains]
  | ofSegs segments =>
    show (ColorStr.new segments).content = concatPlains (ColorStr.new segments).segments
    rw [ColorStr.new, assembleSegments_false_false]
  | ofAdd a b _ _ _ _ =>
    show (ColorStr.new (a.segments ++ b.segments)).content
        = concatPlains (ColorStr.new (a.segments ++ b.segments)).segments
    rw [ColorStr.new, assembleSegments_false_false]
  | ofAddStr a s _ _ =>
    show (ColorStr.new (a.segments ++ [⟨s, "", ""⟩])).content
        = concatPlains (ColorStr.new (a.segments ++ [⟨s, "", ""⟩])).segments
    rw [ColorStr.new, assembleSegments_false_false]
  | ofMul a n r _ hr _ =>
    cases n with
    | nonInt d => simp [ColorStr.mul] at hr
    | int m =>
      by_cases h0 : m ≤ 0
      · simp only [ColorStr.mul, if_pos h0, Except.ok.injEq] at hr
        subst hr
        show (ColorStr.new []).content = _
        rw [ColorStr.new, assembleSegments_false_false]
      · simp only [ColorStr.mul, if_neg h0, Except.ok.injEq] at hr
        subst hr
        show (ColorStr.new _).content = _
        rw [ColorStr.new, assembleSegments_false_false]

/-- C9 witness: the invariant at a concrete composite ColorStr. -/
theorem built_plain_invariant_witness :
    (ColorStr.add sampleColorStr sampleColorStr2).plain
        = concatPlains (ColorStr.add sampleColorStr sampleColorStr2).segments :=
  built_plain_invariant _
    (Built.ofAdd sampleColorStr sampleColorStr2
      (Built.ofFromStr "ab" (some (.name "r")) none none)
      (Built.ofSegs [⟨"c", "", ""⟩, ⟨"d", "44", "1"⟩]))
